import Mathlib

/-!
Verification of the dynamiq message broker core.

Shallow embedding of the Go sources:
* `src/app/members.go` — seed-server prioritisation for the gossip bootstrap;
* `src/core/topic.go` — queue engine (`Put`, `Get`/`RetrieveMessages` with
  read-repair), the approximate depth / fill-ratio estimators, and the queue
  registry reconciliation cycle (`Queues.syncConfig`);
* `src/app/topic.go` — topic fan-out (`Topic.Broadcast`).

Go strings that are ordered lexicographically are modelled as `List Char`
(Go compares strings as character sequences; Lean `String` comparison does not
reduce in the kernel). Strings used only for identity (queue names, message
ids, keys) stay `String`. Byte slices are modelled as `List Nat`.
`float64` arithmetic in the estimators is idealised as exact rational
arithmetic, which is the formula the computation implements.
-/

namespace Dynamiq

/-- Seed addresses: Go strings as character sequences, ordered lexicographically. -/
abbrev Addr := List Char

/-- Go's `sort.Strings`: ascending lexicographic sort of the seed list
(`src/app/members.go:48`). Any correct sort is extensionally the same function
on lists of strings, since equal strings are identical values. -/
def sortStrings (l : List Addr) : List Addr :=
  List.insertionSort (fun a b => a ≤ b) l

/-- Position-finding loop of `prioritizeSeedServers` (`src/app/members.go:50-57`):
`myPos` starts at 0 and is overwritten with `i` at every element equal to
`name`, so it ends at the last matching index, or 0 when there is no match. -/
def findMyPos (name : Addr) : List Addr → Nat → Nat → Nat
  | [], _, acc => acc
  | x :: xs, i, acc => findMyPos name xs (i + 1) (if x = name then i else acc)

/-- prioritizeSeedServers (`src/app/members.go:33-63`). `none` models
`logrus.Fatal`, which terminates the process (empty seed list, or a singleton
seed list holding only this node's own address). Otherwise the list is sorted,
sliced around `myPos`, and the post-slice is returned ahead of the pre-slice. -/
def prioritizeSeedServers (name : Addr) (seedServers : List Addr) : Option (List Addr) :=
  if seedServers.length = 0 then none
  else if seedServers.length = 1 then
    if seedServers.headI = name then none else some seedServers
  else
    let sorted := sortStrings seedServers
    let myPos := findMyPos name sorted 0 0
    let preSlice := sorted.take myPos
    let postSlice := sorted.drop (myPos + 1)
    some (postSlice ++ preSlice)

/-- Number of occurrences of `name` in a seed list, used to say the node's own
address appears exactly once. -/
def countOcc (name : Addr) : List Addr → ℕ
  | [] => 0
  | x :: xs => (if x = name then 1 else 0) + countOcc name xs

/-- Index of the first occurrence of `name`, used to state what the
position-finding loop computes. -/
def posOf (name : Addr) : List Addr → ℕ
  | [] => 0
  | x :: xs => if x = name then 0 else posOf name xs + 1

/-- Helper: `countOcc` is a `countP`, so it is invariant under permutation. -/
theorem countOcc_eq_countP (name : Addr) :
    ∀ l : List Addr, countOcc name l = l.countP (fun x => decide (x = name)) := by
  intro l
  induction l with
  | nil => simp [countOcc]
  | cons x xs ih =>
    by_cases hx : x = name <;>
      simp [countOcc, List.countP_cons, ih, hx, Nat.add_comm]

/-- Helper: a zero occurrence count means absence. -/
theorem countOcc_eq_zero_iff (name : Addr) :
    ∀ l : List Addr, countOcc name l = 0 ↔ name ∉ l := by
  intro l
  induction l with
  | nil => simp [countOcc]
  | cons x xs ih =>
    by_cases hx : x = name
    · subst hx
      simp [countOcc]
    · simp [countOcc, hx, ih, List.mem_cons]
      intro h
      exact fun hx2 => hx hx2.symm

/-- Helper: the loop leaves the accumulator untouched when `name` never occurs. -/
theorem findMyPos_of_not_mem (name : Addr) :
    ∀ (l : List Addr), name ∉ l → ∀ i acc, findMyPos name l i acc = acc := by
  intro l
  induction l with
  | nil => intro _ i acc; rfl
  | cons x xs ih =>
    intro h i acc
    have hx : x ≠ name := fun hxx => h (hxx ▸ List.mem_cons_self x xs)
    have hxs : name ∉ xs := fun hm => h (List.mem_cons_of_mem x hm)
    simp only [findMyPos, if_neg hx]
    exact ih hxs (i + 1) acc

/-- Helper: when `name` occurs exactly once, the loop returns its index
(shifted by the starting offset `i`). -/
theorem findMyPos_of_count_one (name : Addr) :
    ∀ (l : List Addr), countOcc name l = 1 → ∀ i acc,
      findMyPos name l i acc = i + posOf name l := by
  intro l
  induction l with
  | nil => intro h; simp [countOcc] at h
  | cons x xs ih =>
    intro h i acc
    by_cases hx : x = name
    · subst hx
      have hc : countOcc x xs = 0 := by
        simp [countOcc] at h
        omega
      have hnm : x ∉ xs := (countOcc_eq_zero_iff x xs).mp hc
      simp only [findMyPos, if_pos rfl, posOf]
      rw [findMyPos_of_not_mem x xs hnm]
      simp
    · have hc : countOcc name xs = 1 := by
        simpa [countOcc, hx] using h
      simp only [findMyPos, if_neg hx, posOf, if_neg hx]
      rw [ih hc (i + 1) acc]
      omega

/-- Helper: in a `≤`-sorted list where `name` occurs exactly once, the prefix
before `name`'s index is exactly the elements strictly below `name`, and the
suffix after it is exactly the elements strictly above `name`. -/
theorem sorted_take_drop_posOf (name : Addr) :
    ∀ (s : List Addr), s.Pairwise (fun a b => a ≤ b) → countOcc name s = 1 →
      s.take (posOf name s) = s.filter (fun x => decide (x < name)) ∧
      s.drop (posOf name s + 1) = s.filter (fun x => decide (name < x)) := by
  intro s
  induction s with
  | nil => intro _ h; simp [countOcc] at h
  | cons x xs ih =>
    intro hp hc
    have hle : ∀ y ∈ xs, x ≤ y := (List.pairwise_cons.mp hp).1
    have hpxs : xs.Pairwise (fun a b => a ≤ b) := (List.pairwise_cons.mp hp).2
    by_cases hx : x = name
    · subst hx
      have hc0 : countOcc x xs = 0 := by
        simp [countOcc] at hc
        omega
      have hnm : x ∉ xs := (countOcc_eq_zero_iff x xs).mp hc0
      have hgt : ∀ y ∈ xs, x < y := by
        intro y hy
        exact lt_of_le_of_ne (hle y hy) (fun hxy => hnm (hxy ▸ hy))
      have hpos : posOf x (x :: xs) = 0 := by simp [posOf]
      constructor
      · rw [hpos]
        rw [List.take_zero]
        rw [List.filter_cons]
        rw [if_neg (by simp)]
        symm
        rw [List.filter_eq_nil_iff]
        intro a ha
        simp only [decide_eq_true_eq]
        exact not_lt_of_lt (hgt a ha)
      · rw [hpos, Nat.zero_add]
        rw [List.drop_one, List.tail_cons]
        rw [List.filter_cons]
        rw [if_neg (by simp)]
        symm
        rw [List.filter_eq_self]
        intro a ha
        simp only [decide_eq_true_eq]
        exact hgt a ha
    · have hc1 : countOcc name xs = 1 := by
        simpa [countOcc, hx] using hc
      have hnmem : name ∈ xs := by
        by_contra hcon
        have := (countOcc_eq_zero_iff name xs).mpr hcon
        omega
      have hxlt : x < name := lt_of_le_of_ne (hle name hnmem) hx
      obtain ⟨ihtake, ihdrop⟩ := ih hpxs hc1
      have hpos : posOf name (x :: xs) = posOf name xs + 1 := by
        simp [posOf, hx]
      rw [hpos]
      constructor
      · rw [List.take_succ_cons, ihtake]
        rw [List.filter_cons]
        rw [if_pos (by simpa using hxlt)]
      · rw [List.drop_succ_cons, ihdrop]
        rw [List.filter_cons]
        rw [if_neg (by simpa using not_lt_of_lt hxlt)]

/-- C5: for a seed list of at least two addresses in which this node's own
address occurs (exactly once), the bootstrap try-order is the lexicographically
sorted list with the own address removed, rotated so that every address sorting
after the own address comes before every address sorting before it. -/
theorem prioritizeSeedServers_rotates_around_self (name : Addr) (l : List Addr)
    (h2 : 2 ≤ l.length) (hc : countOcc name l = 1) :
    prioritizeSeedServers name l =
      some ((sortStrings l).filter (fun x => decide (name < x)) ++
            (sortStrings l).filter (fun x => decide (x < name))) := by
  have hperm : List.Perm (sortStrings l) l := List.perm_insertionSort _ l
  have hsorted : (sortStrings l).Pairwise (fun a b => a ≤ b) :=
    List.sorted_insertionSort _ l
  have hcs : countOcc name (sortStrings l) = 1 := by
    rw [countOcc_eq_countP, hperm.countP_eq, ← countOcc_eq_countP]
    exact hc
  obtain ⟨htake, hdrop⟩ := sorted_take_drop_posOf name (sortStrings l) hsorted hcs
  have hpos : findMyPos name (sortStrings l) 0 0 = posOf name (sortStrings l) :=
    (findMyPos_of_count_one name (sortStrings l) hcs 0 0).trans (by omega)
  unfold prioritizeSeedServers
  rw [if_neg (by omega), if_neg (by omega)]
  simp only [hpos, htake, hdrop]

/-- C5 witness: seeds a, b, c with self b yield try-order c, a. -/
theorem prioritizeSeedServers_rotates_around_self_witness :
    prioritizeSeedServers ['b'] [['a'], ['b'], ['c']] = some [['c'], ['a']] :=
  (prioritizeSeedServers_rotates_around_self ['b'] [['a'], ['b'], ['c']]
    (by decide) (by decide)).trans (by decide)

/-- C10: when the node's own address is absent from a seed list of at least two
entries, `myPos` keeps its default 0, so the returned try-order is the sorted
list with its lexicographically smallest entry removed — that seed is never
tried. -/
theorem prioritizeSeedServers_drops_min_without_self (name : Addr) (l : List Addr)
    (h2 : 2 ≤ l.length) (hn : name ∉ l) :
    ∃ m rest, sortStrings l = m :: rest ∧ (∀ x ∈ l, m ≤ x) ∧
      prioritizeSeedServers name l = some rest := by
  have hperm : List.Perm (sortStrings l) l := List.perm_insertionSort _ l
  have hsorted : (sortStrings l).Pairwise (fun a b => a ≤ b) :=
    List.sorted_insertionSort _ l
  have hlen : (sortStrings l).length = l.length := hperm.length_eq
  have hns : name ∉ sortStrings l := fun hm => hn (hperm.mem_iff.mp hm)
  obtain ⟨m, rest, hrw⟩ : ∃ m rest, sortStrings l = m :: rest := by
    cases hsl : sortStrings l with
    | nil => rw [hsl] at hlen; simp at hlen; omega
    | cons m rest => exact ⟨m, rest, rfl⟩
  refine ⟨m, rest, hrw, ?_, ?_⟩
  · intro x hx
    have hxs : x ∈ sortStrings l := hperm.mem_iff.mpr hx
    rw [hrw] at hxs hsorted
    rcases List.mem_cons.mp hxs with h | h
    · exact h ▸ le_refl m
    · exact (List.pairwise_cons.mp hsorted).1 x h
  · have hfmp : findMyPos name (sortStrings l) 0 0 = 0 :=
      findMyPos_of_not_mem name (sortStrings l) hns 0 0
    rw [hrw] at hfmp
    unfold prioritizeSeedServers
    rw [if_neg (by omega), if_neg (by omega)]
    simp only [hrw, hfmp]
    simp

/-- C10 witness: seeds c, b with self z (absent) drop the smallest seed b. -/
theorem prioritizeSeedServers_drops_min_without_self_witness :
    ∃ m rest, sortStrings [['c'], ['b']] = m :: rest ∧
      (∀ x ∈ [['c'], ['b']], m ≤ x) ∧
      prioritizeSeedServers ['z'] [['c'], ['b']] = some rest :=
  prioritizeSeedServers_drops_min_without_self ['z'] [['c'], ['b']]
    (by decide) (by decide)

/-- Width used by the approximate depth estimator: `math.MaxInt64`
(`src/core/topic.go:132`), the full id-space width, ids being random 63-bit
integers. -/
def maxInt64 : ℤ := 2 ^ 63 - 1

/-- setQueueDepthApr (`src/core/topic.go:120-139`): gauge value of the
approximate-depth estimator. Ids arrive as decimal strings from the index
range query and are parsed with `strconv.ParseInt`; they are modelled directly
as their integer values. The value is the one handed to `SetGauge` before the
final `int64` conversion, with `float64` arithmetic idealised as exact
rational arithmetic. `partitionCount` is `queue.Parts.PartitionCount()` and
`memberCount` is `len(list.Members())`. -/
def setQueueDepthApr (partitionCount memberCount : ℕ) (ids : List ℤ) : ℚ :=
  if 1 < ids.length then
    let first := ids.headD 0
    let last := ids.getLastD 0
    let difference := last - first
    let density : ℚ := (ids.length : ℚ) / (difference : ℚ)
    density * (maxInt64 : ℚ)
  else
    let multiplier := partitionCount * memberCount
    ((ids.length * multiplier : ℕ) : ℚ)

/-- recordFillRatio (`src/core/topic.go:86-92`): gauge value
`int64(math.Floor((float64(messageCount) / float64(batchSize)) * 100))`,
with the `float64` division idealised as exact rational division. -/
def recordFillRatio (batchSize messageCount : ℤ) : ℤ :=
  ⌊((messageCount : ℚ) / (batchSize : ℚ)) * 100⌋

/-- Helper: the default-valued head of a nonempty list is a member. -/
theorem headD_mem_of_ne_nil {α : Type} (d : α) :
    ∀ (l : List α), l ≠ [] → l.headD d ∈ l := by
  intro l h
  cases l with
  | nil => exact absurd rfl h
  | cons a t => exact List.mem_cons_self a t

/-- Helper: the default-valued last element of a nonempty list is a member. -/
theorem getLastD_mem_of_ne_nil {α : Type} :
    ∀ (l : List α) (d : α), l ≠ [] → l.getLastD d ∈ l := by
  intro l
  induction l with
  | nil => intro d h; exact absurd rfl h
  | cons a t ih =>
    intro d _
    cases t with
    | nil => simp [List.getLastD]
    | cons b t2 =>
      rw [List.getLastD_cons]
      exact List.mem_cons_of_mem a (ih a (by simp))

/-- Helper: in a `≤`-sorted list the head is a lower bound. -/
theorem sorted_headD_le (l : List ℤ) (hs : l.Pairwise (fun a b => a ≤ b)) :
    ∀ x ∈ l, l.headD 0 ≤ x := by
  cases l with
  | nil => intro x hx; exact absurd hx (List.not_mem_nil x)
  | cons a t =>
    intro x hx
    rcases List.mem_cons.mp hx with h | h
    · simp [h]
    · simpa using (List.pairwise_cons.mp hs).1 x h

/-- Helper: in a `≤`-sorted list the last element is an upper bound. -/
theorem sorted_le_getLastD (l : List ℤ) (hs : l.Pairwise (fun a b => a ≤ b)) :
    ∀ d, ∀ x ∈ l, x ≤ l.getLastD d := by
  induction l with
  | nil => intro d x hx; exact absurd hx (List.not_mem_nil x)
  | cons a t ih =>
    intro d x hx
    have hle : ∀ y ∈ t, a ≤ y := (List.pairwise_cons.mp hs).1
    have hpt : t.Pairwise (fun a b => a ≤ b) := (List.pairwise_cons.mp hs).2
    cases t with
    | nil =>
      simp [List.getLastD]
      rcases List.mem_cons.mp hx with h | h
      · simp [h]
      · exact absurd h (List.not_mem_nil x)
    | cons b t2 =>
      rw [List.getLastD_cons]
      rcases List.mem_cons.mp hx with h | h
      · subst h
        calc x ≤ (b :: t2).getLastD 0 := by
              have hmem := getLastD_mem_of_ne_nil (b :: t2) (0 : ℤ) (by simp)
              exact hle _ hmem
          _ = (b :: t2).getLastD x := by
              cases t2 with
              | nil => simp [List.getLastD]
              | cons c t3 =>
                conv_lhs => rw [List.getLastD_cons]
                conv_rhs => rw [List.getLastD_cons]
      · exact ih hpt a x h

/-- C3: the approximate-depth gauge for a sorted sample of at least two ids
equals sampleCount / (maxId - minId) scaled by the full id-space width
(`maxInt64`); for an empty or singleton sample it equals
sampleCount * partitionCount * memberCount. -/
theorem setQueueDepthApr_density_formula (partitionCount memberCount : ℕ)
    (ids : List ℤ) (hs : ids.Pairwise (fun a b => a ≤ b)) :
    (∀ lo hi, lo ∈ ids → hi ∈ ids → (∀ x ∈ ids, lo ≤ x) → (∀ x ∈ ids, x ≤ hi) →
      2 ≤ ids.length →
      setQueueDepthApr partitionCount memberCount ids =
        (ids.length : ℚ) / ((hi : ℚ) - (lo : ℚ)) * (maxInt64 : ℚ)) ∧
    (ids.length ≤ 1 →
      setQueueDepthApr partitionCount memberCount ids =
        ((ids.length * partitionCount * memberCount : ℕ) : ℚ)) := by
  constructor
  · intro lo hi hlo hhi hmin hmax hlen
    have hne : ids ≠ [] := by
      intro h
      rw [h] at hlen
      simp at hlen
    have hhead : ids.headD 0 = lo :=
      le_antisymm (sorted_headD_le ids hs lo hlo) (hmin _ (headD_mem_of_ne_nil 0 ids hne))
    have hlast : ids.getLastD 0 = hi :=
      le_antisymm (hmax _ (getLastD_mem_of_ne_nil ids 0 hne))
        (sorted_le_getLastD ids hs 0 hi hhi)
    unfold setQueueDepthApr
    rw [if_pos (by omega)]
    rw [hhead, hlast]
    push_cast
    ring
  · intro hlen
    unfold setQueueDepthApr
    rw [if_neg (by omega)]
    push_cast
    ring

/-- C3 witness: sample [100, 250, 400, 900] gives 4 / (900 - 100) * W, and the
singleton sample [42] with 3 partitions and 2 members gives 1 * 3 * 2 = 6. -/
theorem setQueueDepthApr_density_formula_witness :
    setQueueDepthApr 3 2 [100, 250, 400, 900] =
      (4 : ℚ) / ((900 : ℚ) - (100 : ℚ)) * (maxInt64 : ℚ) ∧
    setQueueDepthApr 3 2 [42] = (6 : ℚ) := by
  constructor
  · exact ((setQueueDepthApr_density_formula 3 2 [100, 250, 400, 900]
      (by decide)).1 100 900 (by decide) (by decide) (by decide) (by decide)
      (by decide)).trans (by norm_num)
  · exact ((setQueueDepthApr_density_formula 3 2 [42] (by decide)).2
      (by decide)).trans (by norm_num)

/-- C4: the fill-ratio gauge is the floored integer percentage of returned
versus requested messages — for a positive batch size it equals the integer
division (messageCount * 100) / batchSize, and in particular
batchSize = 10 with messageCount = 3 yields 30. -/
theorem recordFillRatio_floored_percentage (batchSize messageCount : ℤ)
    (hbs : 0 < batchSize) :
    recordFillRatio batchSize messageCount = messageCount * 100 / batchSize ∧
    recordFillRatio 10 3 = 30 := by
  constructor
  · unfold recordFillRatio
    have hq : ((batchSize.toNat : ℕ) : ℚ) = (batchSize : ℚ) := by
      rw [show ((batchSize.toNat : ℕ) : ℚ) = ((batchSize.toNat : ℤ) : ℚ) by push_cast; ring]
      rw [Int.toNat_of_nonneg hbs.le]
    have harg : ((messageCount : ℚ) / (batchSize : ℚ)) * 100 =
        ((messageCount * 100 : ℤ) : ℚ) / ((batchSize.toNat : ℕ) : ℚ) := by
      rw [hq]
      push_cast
      ring
    rw [harg]
    rw [Rat.floor_intCast_div_natCast]
    rw [Int.toNat_of_nonneg hbs.le]
  · unfold recordFillRatio
    norm_num

/-- C4 witness: batch size 10 with 3 returned messages records 30. -/
theorem recordFillRatio_floored_percentage_witness :
    recordFillRatio 10 3 = 30 :=
  (recordFillRatio_floored_percentage 10 3 (by decide)).2

/-- Environment of one Queue.Put call (`src/core/topic.go:217-252`): outcomes
of the external calls it makes. `bucketOk` is whether `NewBucketType`
succeeds; `shouldCompress` is the queue's compression setting;
`compressResult` is the compressor's output (`none` = compression error, in
which case the raw body is stored); `storeOk` is whether `messageObj.Store()`
succeeds; `uuid` is the decimal rendering of the random id drawn from
`rand.Int(rand.Reader, &MaxIDSize)`. -/
structure PutEnv where
  bucketOk : Bool
  shouldCompress : Bool
  compressResult : Option (List Nat)
  storeOk : Bool
  uuid : String
deriving DecidableEq

/-- Observable outcome of Queue.Put: the id returned to the caller, the
object handed to `Store()` (key paired with body bytes; `none` when `Store`
was never reached), and whether that store succeeded. -/
structure PutOutcome where
  returnedId : String
  storedObject : Option (String × List Nat)
  storeSucceeded : Bool
deriving DecidableEq

/-- Queue.Put (`src/core/topic.go:217-252`). When the bucket is obtained, the
body is (optionally) compressed, a fresh uuid is drawn, the object is stored —
with the error of `messageObj.Store()` discarded by the source (the call's
result is not assigned) — and the uuid is returned. Only a `NewBucketType`
failure reaches the trailing `return ""`. -/
def put (env : PutEnv) (message : List Nat) : PutOutcome :=
  if env.bucketOk then
    let body :=
      if env.shouldCompress then
        match env.compressResult with
        | some compressed => compressed
        | none => message
      else message
    ⟨env.uuid, some (env.uuid, body), env.storeOk⟩
  else
    ⟨"", none, false⟩

/-- C1 counterexample: a Put whose object write (Store) fails while the bucket
was obtained still returns the non-empty generated id "42", so a failing write
does not yield an empty id. -/
theorem put_store_failure_still_returns_id :
    (put ⟨true, false, none, false, "42"⟩ []).storeSucceeded = false ∧
    (put ⟨true, false, none, false, "42"⟩ []).returnedId = "42" := by
  constructor <;> rfl

/-- C1 amended: Put returns an empty id exactly when obtaining the bucket
fails (in which case no object write is attempted); whenever the bucket is
obtained, the generated id is returned and the write is attempted, regardless
of whether the write itself succeeds — `Store()`'s error is discarded. -/
theorem put_empty_id_iff_bucket_failure (env : PutEnv) (message : List Nat)
    (huuid : env.uuid ≠ "") :
    ((put env message).returnedId = "" ↔ env.bucketOk = false) ∧
    (env.bucketOk = true →
      (put env message).returnedId = env.uuid ∧
      (put env message).storedObject.isSome = true) := by
  cases hb : env.bucketOk <;> simp [put, hb, huuid]

/-- C1 amended witness: bucket obtained, store fails, id "7" still returned
and the write attempted. -/
theorem put_empty_id_iff_bucket_failure_witness :
    ((put ⟨true, true, none, false, "7"⟩ [1, 2]).returnedId = "" ↔
      (⟨true, true, none, false, "7"⟩ : PutEnv).bucketOk = false) ∧
    ((⟨true, true, none, false, "7"⟩ : PutEnv).bucketOk = true →
      (put ⟨true, true, none, false, "7"⟩ [1, 2]).returnedId = "7" ∧
      (put ⟨true, true, none, false, "7"⟩ [1, 2]).storedObject.isSome = true) :=
  put_empty_id_iff_bucket_failure ⟨true, true, none, false, "7"⟩ [1, 2] (by decide)

/-- Topic.Broadcast (`src/app/topic.go:77-90`): iterates the topic's linked
queue set; a queue not yet in the local `QueueMap` is first initialised
(`InitQueue`, which adds it to the map), then `Put` is called on it and the
returned uuid recorded under the queue's name. `putResult` gives the id that
`Put` returns for each queue — the empty string models a failed `Put`.
Returns the queueWrites association list together with the final queue map. -/
def broadcast (linkedQueues : List String) (queueMap : List String)
    (putResult : String → String) : List (String × String) × List String :=
  match linkedQueues with
  | [] => ([], queueMap)
  | q :: rest =>
    let queueMapAfterInit := if q ∈ queueMap then queueMap else queueMap ++ [q]
    let r := broadcast rest queueMapAfterInit putResult
    ((q, putResult q) :: r.1, r.2)

/-- Helper: broadcast only ever grows the local queue map. -/
theorem broadcast_map_mono (x : String) :
    ∀ (linked queueMap : List String) (putResult : String → String),
      x ∈ queueMap → x ∈ (broadcast linked queueMap putResult).2 := by
  intro linked
  induction linked with
  | nil => intro qm pr hx; exact hx
  | cons q rest ih =>
    intro qm pr hx
    simp only [broadcast]
    by_cases hq : q ∈ qm
    · rw [if_pos hq]
      exact ih qm pr hx
    · rw [if_neg hq]
      exact ih (qm ++ [q]) pr (List.mem_append_left _ hx)

/-- C6: Broadcast attempts a Put on every queue of the linked set — lazily
initialising it into the queue map — and records that queue's own Put result
in the returned write map; the entry for `q` is `putResult q` whatever ids
(including empty ids, i.e. failures) the Puts on the other queues return, so
one queue's failure does not prevent or alter delivery to any other. -/
theorem broadcast_delivers_to_every_queue (linkedQueues queueMap : List String)
    (putResult : String → String) (q : String) (hq : q ∈ linkedQueues) :
    (broadcast linkedQueues queueMap putResult).1.lookup q = some (putResult q) ∧
    q ∈ (broadcast linkedQueues queueMap putResult).2 := by
  induction linkedQueues generalizing queueMap with
  | nil => exact absurd hq (List.not_mem_nil q)
  | cons a rest ih =>
    simp only [broadcast]
    by_cases hqa : q = a
    · subst hqa
      constructor
      · simp [List.lookup]
      · by_cases hmem : q ∈ queueMap
        · rw [if_pos hmem]
          exact broadcast_map_mono q rest queueMap putResult hmem
        · rw [if_neg hmem]
          exact broadcast_map_mono q rest (queueMap ++ [q]) putResult
            (List.mem_append_right _ (List.mem_singleton.mpr rfl))
    · have hrest : q ∈ rest := by
        rcases List.mem_cons.mp hq with h | h
        · exact absurd h hqa
        · exact h
      have hbeq : (q == a) = false := beq_false_of_ne hqa
      constructor
      · simp only [List.lookup, hbeq]
        exact (ih _ hrest).1
      · exact (ih _ hrest).2

/-- C6 witness: linked queues q1 and q2 where the Put on q1 fails (empty id);
q2 still gets its Put, its id is recorded, and q2 is initialised into the
(initially empty) local queue map. -/
theorem broadcast_delivers_to_every_queue_witness :
    (broadcast ["q1", "q2"] [] (fun s => if s = "q1" then "" else "id2")).1.lookup "q2" =
      some "id2" ∧
    "q2" ∈ (broadcast ["q1", "q2"] [] (fun s => if s = "q1" then "" else "id2")).2 :=
  broadcast_delivers_to_every_queue ["q1", "q2"] []
    (fun s => if s = "q1" then "" else "id2") "q2" (by decide)

/-- Teardown actions performed by the stale-queue phase of Queues.syncConfig
(`src/core/topic.go:422-438`), in execution order. -/
inductive SyncEvent where
  | deleteFromTopic (topicName queueName : String)
  | deleteLocalQueue (queueName : String)
deriving DecidableEq

/-- Cascade loop of Queues.syncConfig (`src/core/topic.go:428-435`): for every
topic of the topic map and every entry of that topic's linked-queue list equal
to the stale queue's name, `Topic.DeleteQueue` is called. Topics are given as
(name, linked-queue list) pairs. -/
def topicCascade (queueName : String) (topics : List (String × List String)) :
    List SyncEvent :=
  topics.flatMap (fun topic =>
    (topic.2.filter (fun topicQueue => topicQueue == queueName)).map
      (fun _ => SyncEvent.deleteFromTopic topic.1 queueName))

/-- Stale-queue teardown phase of Queues.syncConfig
(`src/core/topic.go:424-438`): every local queue name absent from
`queuesToKeep` is first removed from each referencing topic, then deleted from
the local queue map. -/
def syncTeardown (localQueues : List String) (queuesToKeep : String → Bool)
    (topics : List (String × List String)) : List SyncEvent :=
  localQueues.flatMap (fun queue =>
    if queuesToKeep queue then []
    else topicCascade queue topics ++ [SyncEvent.deleteLocalQueue queue])

/-- C7: in a reconciliation cycle, for a stale local queue `q` (present
locally, absent from the remote keep-set) and any topic `t` whose linked set
still references `q`, the teardown trace contains the removal of `q` from `t`
strictly before the deletion of `q` from the local queue map — expressed as
the two events forming a sublist of the trace in that order. -/
theorem syncTeardown_cascades_before_delete (localQueues : List String)
    (queuesToKeep : String → Bool) (topics : List (String × List String))
    (q t : String) (qs : List String) (hq : q ∈ localQueues)
    (hk : queuesToKeep q = false) (ht : (t, qs) ∈ topics) (hqs : q ∈ qs) :
    List.Sublist [SyncEvent.deleteFromTopic t q, SyncEvent.deleteLocalQueue q]
      (syncTeardown localQueues queuesToKeep topics) := by
  obtain ⟨pre, post, rfl⟩ := List.append_of_mem hq
  have hmem : SyncEvent.deleteFromTopic t q ∈ topicCascade q topics := by
    rw [topicCascade, List.mem_flatMap]
    refine ⟨(t, qs), ht, ?_⟩
    rw [List.mem_map]
    refine ⟨q, ?_, rfl⟩
    rw [List.mem_filter]
    exact ⟨hqs, by simp⟩
  have hseg : List.Sublist
      [SyncEvent.deleteFromTopic t q, SyncEvent.deleteLocalQueue q]
      (topicCascade q topics ++ [SyncEvent.deleteLocalQueue q]) := by
    have h1 : List.Sublist [SyncEvent.deleteFromTopic t q] (topicCascade q topics) :=
      List.singleton_sublist.mpr hmem
    exact List.Sublist.append h1 (List.Sublist.refl _)
  have htrace : syncTeardown (pre ++ q :: post) queuesToKeep topics =
      syncTeardown pre queuesToKeep topics ++
      ((topicCascade q topics ++ [SyncEvent.deleteLocalQueue q]) ++
        syncTeardown post queuesToKeep topics) := by
    rw [syncTeardown, List.flatMap_append, List.flatMap_cons]
    rw [if_neg (by simp [hk])]
    rfl
  rw [htrace]
  refine List.Sublist.trans ?_ (List.sublist_append_right _ _)
  exact List.Sublist.trans (hseg.trans (List.sublist_append_left _ _)) (List.Sublist.refl _)

/-- C7 witness: local queue "stale" (not kept) referenced by topic "t1" — its
removal from "t1" precedes its local deletion in the teardown trace. -/
theorem syncTeardown_cascades_before_delete_witness :
    List.Sublist
      [SyncEvent.deleteFromTopic "t1" "stale", SyncEvent.deleteLocalQueue "stale"]
      (syncTeardown ["stale"] (fun _ => false) [("t1", ["stale", "other"])]) :=
  syncTeardown_cascades_before_delete ["stale"] (fun _ => false)
    [("t1", ["stale", "other"])] "stale" "t1" ["stale", "other"]
    (by decide) rfl (by decide) (by decide)

/-- Local state of the Queues registry: the local queue map (names of locally
materialised queues) and the topics with their linked-queue lists. -/
structure QueuesState where
  queueMap : List String
  topics : List (String × List String)
deriving DecidableEq

/-- Outcome of fetching the shared configuration map from the store:
success with the remote queue-name set, the benign "Object not found"
(no queues configured yet), or a transient error (network blip / node down). -/
inductive FetchOutcome where
  | ok (remoteQueues : List String)
  | notFound
  | err
deriving DecidableEq

/-- Reconciliation body of Queues.syncConfig (`src/core/topic.go:392-443`)
once the remote queue set has been fetched: queues present remotely but not
locally are initialised (`initQueueFromRiak` adds them to the map); then every
local queue absent remotely is removed from all referencing topics and deleted
from the map (the phase traced by `syncTeardown`). The per-queue settings
resync of surviving queues does not change the map or the topics. -/
def reconcile (remoteQueues : List String) (st : QueuesState) : QueuesState :=
  let queueMapAfterAdd :=
    st.queueMap ++ remoteQueues.filter (fun r => !(st.queueMap.contains r))
  let keep := fun q => remoteQueues.contains q
  let topicsAfterCascade := st.topics.map (fun topic =>
    (topic.1, topic.2.filter (fun tq => !(queueMapAfterAdd.contains tq && !(keep tq)))))
  ⟨queueMapAfterAdd.filter keep, topicsAfterCascade⟩

/-- One cycle of the Queues.syncConfig loop (`src/core/topic.go:365-444`):
`bucketOk` is whether `NewBucketType` succeeds; `mapFetch` is the result of
`FetchMap` on the queue configuration. Both error paths `return` before any
local state is touched; "Object not found" proceeds, but the queue set is then
nil and the cycle bails with the state unchanged. -/
def syncConfigCycle (bucketOk : Bool) (mapFetch : FetchOutcome)
    (st : QueuesState) : QueuesState :=
  if bucketOk then
    match mapFetch with
    | FetchOutcome.err => st
    | FetchOutcome.notFound => st
    | FetchOutcome.ok remoteQueues => reconcile remoteQueues st
  else st

/-- C8: a reconciliation cycle in which fetching the shared configuration
fails transiently (bucket lookup error, or a transient map-fetch error) leaves
the local queue map and topic state exactly as they were — nothing is
cleared, created or destroyed — and the cycle function returns normally. -/
theorem syncConfigCycle_skips_on_transient_failure (bucketOk : Bool)
    (mapFetch : FetchOutcome) (st : QueuesState)
    (h : bucketOk = false ∨ mapFetch = FetchOutcome.err) :
    syncConfigCycle bucketOk mapFetch st = st := by
  rcases h with h | h
  · subst h
    rfl
  · subst h
    cases bucketOk <;> rfl

/-- C8 witness: a nonempty local state survives a transient map-fetch failure
unchanged. -/
theorem syncConfigCycle_skips_on_transient_failure_witness :
    syncConfigCycle true FetchOutcome.err
      ⟨["q1", "q2"], [("t1", ["q1"])]⟩ = ⟨["q1", "q2"], [("t1", ["q1"])]⟩ :=
  syncConfigCycle_skips_on_transient_failure true FetchOutcome.err
    ⟨["q1", "q2"], [("t1", ["q1"])]⟩ (Or.inr rfl)

/-- Riak object as seen by Queue.RetrieveMessages (`src/core/topic.go:296-363`):
its key, its data bytes, the data of its siblings (present under a write
conflict), and the `Conflict()` flag reported by the storage client. -/
structure RObj where
  key : String
  data : List Nat
  siblings : List (List Nat)
  conflict : Bool
deriving DecidableEq

/-- Store actions performed by the read-repair block of RetrieveMessages
(`src/core/topic.go:344-357`), in execution order: a re-`Put` of a sibling
body under a freshly drawn random id, or the `Destroy` of a conflicted key. -/
inductive REvent where
  | rePut (freshId : String) (body : List Nat)
  | destroy (key : String)
deriving DecidableEq

/-- Sibling loop of the read-repair block (`src/core/topic.go:345-351`): each
sibling with non-empty data is re-`Put` (drawing the next random id from
`supply`, the stream of ids that `rand.Int` hands to `Queue.Put`); empty
siblings are skipped. Returns the emitted events and the next unused index
into the id supply. -/
def processSiblings (supply : ℕ → String) :
    List (List Nat) → ℕ → List REvent × ℕ
  | [], n => ([], n)
  | sibling :: rest, n =>
    if 0 < sibling.length then
      let r := processSiblings supply rest (n + 1)
      (REvent.rePut (supply n) sibling :: r.1, r.2)
    else
      processSiblings supply rest n

/-- Conflict handling for one fetched object in the collector loop of
RetrieveMessages (`src/core/topic.go:344-357`): when the object is in
conflict, its siblings are re-`Put` and then the object is destroyed;
otherwise nothing is emitted. -/
def processObject (supply : ℕ → String) (o : RObj) (n : ℕ) : List REvent × ℕ :=
  if o.conflict then
    let r := processSiblings supply o.siblings n
    (r.1 ++ [REvent.destroy o.key], r.2)
  else ([], n)

/-- Queue.RetrieveMessages (`src/core/topic.go:296-363`). Per id, the worker
goroutine calls `bucket.Get`; on an error the client returns no object (a nil
pointer) yet the source still executes `rObjectArrayChan <- *rObject`, a nil
dereference — a runtime panic modelled as `none`. On success the object's
data is decompressed when the queue is configured compressed, the object is
appended to the result when its data is non-empty, and the read-repair block
(`processObject`) runs on it. The goroutine interleaving only permutes the
processing order of the ids; they are processed here in list order. -/
def retrieveMessages (decompress : Bool) (decomp : List Nat → List Nat)
    (fetch : String → Option RObj) (supply : ℕ → String) :
    List String → ℕ → Option (List RObj × List REvent × ℕ)
  | [], n => some ([], [], n)
  | id :: rest, n =>
    match fetch id with
    | none => none
    | some fetched =>
      let obj := if decompress then
          RObj.mk fetched.key (decomp fetched.data) fetched.siblings fetched.conflict
        else fetched
      let r := processObject supply obj n
      match retrieveMessages decompress decomp fetch supply rest r.2 with
      | none => none
      | some (vals, evs, nFinal) =>
        some ((if 0 < obj.data.length then obj :: vals else vals), r.1 ++ evs, nFinal)

/-- Helper: closed form of the sibling loop — one re-Put per non-empty
sibling, drawing consecutive ids from the supply. -/
theorem processSiblings_eq (supply : ℕ → String) :
    ∀ (siblings : List (List Nat)) (n : ℕ),
      processSiblings supply siblings n =
        (List.zipWith REvent.rePut
          ((List.range (siblings.filter (fun b => 0 < b.length)).length).map
            (fun i => supply (n + i)))
          (siblings.filter (fun b => 0 < b.length)),
         n + (siblings.filter (fun b => 0 < b.length)).length) := by
  intro siblings
  induction siblings with
  | nil => intro n; simp [processSiblings]
  | cons sibling rest ih =>
    intro n
    by_cases hlen : 0 < sibling.length
    · have hfilter : (sibling :: rest).filter (fun b => decide (0 < b.length)) =
          sibling :: rest.filter (fun b => decide (0 < b.length)) := by
        rw [List.filter_cons, if_pos (by simpa using hlen)]
      simp only [processSiblings, if_pos hlen, hfilter]
      rw [ih (n + 1)]
      simp only [Prod.mk.injEq]
      constructor
      · rw [List.length_cons, List.range_succ_eq_map]
        rw [List.map_cons, List.map_map]
        rw [List.zipWith_cons_cons]
        rw [Nat.add_zero]
        have hmap : (List.range (rest.filter (fun b => decide (0 < b.length))).length).map
              ((fun i => supply (n + i)) ∘ Nat.succ) =
            (List.range (rest.filter (fun b => decide (0 < b.length))).length).map
              (fun i => supply (n + 1 + i)) := by
          apply List.map_congr_left
          intro a _
          simp only [Function.comp_apply]
          congr 1
          omega
        rw [hmap]
        simp
      · rw [List.length_cons]
        omega
    · have hfilter : (sibling :: rest).filter (fun b => decide (0 < b.length)) =
          rest.filter (fun b => decide (0 < b.length)) := by
        rw [List.filter_cons, if_neg (by simpa using hlen)]
      simp only [processSiblings, if_neg hlen, hfilter]
      exact ih n

/-- Helper: every event produced by the re-Put zip is a re-Put. -/
theorem zipWith_rePut_countP :
    ∀ (ids : List String) (bodies : List (List Nat)),
      (List.zipWith REvent.rePut ids bodies).countP
        (fun e => match e with | REvent.rePut _ _ => true | REvent.destroy _ => false) =
      (List.zipWith REvent.rePut ids bodies).length := by
  intro ids
  induction ids with
  | nil => intro bodies; simp
  | cons a ids ih =>
    intro bodies
    cases bodies with
    | nil => simp
    | cons b bodies =>
      rw [List.zipWith_cons_cons]
      rw [List.countP_cons, List.length_cons]
      rw [ih bodies]
      simp

/-- C2: for a fetched object in conflict, the read-repair step re-Puts exactly
the non-empty siblings — pairing each, in order, with a fresh id drawn from
the random-id supply — then destroys the conflicted key afterwards; hence the
number of re-Put events equals the number of non-empty siblings. -/
theorem readRepair_splits_conflict (o : RObj) (supply : ℕ → String) (n : ℕ)
    (hconflict : o.conflict = true) :
    (processObject supply o n).1 =
      List.zipWith REvent.rePut
        ((List.range (o.siblings.filter (fun b => 0 < b.length)).length).map
          (fun i => supply (n + i)))
        (o.siblings.filter (fun b => 0 < b.length)) ++
      [REvent.destroy o.key] ∧
    (processObject supply o n).1.countP
        (fun e => match e with | REvent.rePut _ _ => true | REvent.destroy _ => false) =
      (o.siblings.filter (fun b => 0 < b.length)).length ∧
    (processObject supply o n).2 =
      n + (o.siblings.filter (fun b => 0 < b.length)).length := by
  have hobj : processObject supply o n =
      ((processSiblings supply o.siblings n).1 ++ [REvent.destroy o.key],
       (processSiblings supply o.siblings n).2) := by
    rw [processObject, if_pos hconflict]
  rw [hobj, processSiblings_eq supply o.siblings n]
  refine ⟨rfl, ?_, rfl⟩
  rw [List.countP_append, zipWith_rePut_countP]
  rw [List.length_zipWith, List.length_map, List.length_range]
  simp [List.countP_cons]

/-- C2 witness: a conflicted object with siblings [7], [] and [9] re-Puts the
two non-empty siblings under fresh ids u0 and u1 and destroys key k; the id
supply advances by 2. -/
theorem readRepair_splits_conflict_witness :
    (processObject (fun i => if i = 0 then "u0" else "u1")
        ⟨"k", [1], [[7], [], [9]], true⟩ 0).1 =
      [REvent.rePut "u0" [7], REvent.rePut "u1" [9], REvent.destroy "k"] ∧
    (processObject (fun i => if i = 0 then "u0" else "u1")
        ⟨"k", [1], [[7], [], [9]], true⟩ 0).2 = 2 := by
  have h := readRepair_splits_conflict ⟨"k", [1], [[7], [], [9]], true⟩
    (fun i => if i = 0 then "u0" else "u1") 0 rfl
  exact ⟨h.1.trans (by decide), h.2.2.trans (by decide)⟩

/-- C9 at its failing input: a batch holding the single id "1" whose store
fetch fails. The storage client returns an error together with no object (a
nil pointer); the source logs the error but then unconditionally executes
`rObjectArrayChan <- *rObject` — contrary to its own inline comment, which
says the object should be pushed only when there was no error — so the
dereference of the nil object panics the process (`none`), instead of
omitting the failed id and returning the remaining messages. -/
theorem retrieveMessages_panics_on_fetch_error :
    retrieveMessages false (fun body => body) (fun _ => none) (fun _ => "")
      ["1"] 0 = none := rfl

end Dynamiq
